import Mathlib

set_option linter.unusedVariables false

/-! Verification of the atlas-stitching and label-lookup core of the
qsipipeline-VUMC-Psychiatry repository, shallowly embedded in Lean.

The embedded code is src/create_custom_atlas/build_custom_hcp_thomas.py
(volume stitching, label remapping, label-table building) and
src/create_custom_atlas/tidy_LUTS_qsirecon.py (name normalization, lookup-table
loading, presence filtering).

Modelling conventions: a label volume is its flattened voxel array, a
List Int (all volumes of one stitch share one shape, so one flattening);
python strings are List Char; python dicts are association lists kept in
insertion order; file writes are recorded explicitly as (path, data) pairs. -/

/-- Lowercase a character, as python casefolding does on ASCII letters. -/
def lowerc (c : Char) : Char := c.toLower

/-- The regex character class [_\- ] used by the hemisphere patterns of
tidy_LUTS_qsirecon.py. -/
def isSepChar (c : Char) : Bool := c == '_' || c == '-' || c == ' '

/-- Whitespace trimmed by python str.strip (common ASCII subset). -/
def isWsChar (c : Char) : Bool := c == ' ' || c == '\t' || c == '\n' || c == '\r'

/-- Case-insensitive removal of the pattern word from the front of s: some
remainder on a match, none otherwise. The pattern is given lowercased. -/
def stripCI : List Char → List Char → Option (List Char)
  | [], s => some s
  | _ :: _, [] => none
  | p :: ps, c :: cs => if lowerc c == p then stripCI ps cs else none

/-- One hemisphere marker pattern of detect_hemi: the marker word followed by
one separator, at the start of the string, case-insensitively. -/
def matchesMark (w s : List Char) : Bool :=
  match stripCI w s with
  | some (c :: _) => isSepChar c
  | _ => false

/-- Remove a leading marker word plus one separator, if present. -/
def dropMarkSep (w s : List Char) : Option (List Char) :=
  match stripCI w s with
  | some (c :: r) => if isSepChar c then some r else none
  | _ => none

/-- The ctx-lh- / ctx-rh- style marker pattern, case-insensitively. -/
def matchesCtx (lr s : List Char) : Bool :=
  (stripCI (['c', 't', 'x', '-'] ++ lr ++ ['-']) s).isSome

/-- detect_hemi of tidy_LUTS_qsirecon.py: the left patterns are tried first,
then the right ones; matching is case-insensitive, so the LH/RH patterns
coincide with the lh/rh ones. Returns L, R or none. -/
def detect_hemi (s : List Char) : Option Char :=
  if matchesMark ['l'] s || matchesMark ['l', 'e', 'f', 't'] s ||
     matchesMark ['l', 'h'] s || matchesCtx ['l', 'h'] s then some 'L'
  else if matchesMark ['r'] s || matchesMark ['r', 'i', 'g', 'h', 't'] s ||
     matchesMark ['r', 'h'] s || matchesCtx ['r', 'h'] s then some 'R'
  else none

/-- First re.sub of strip_hemi_prefix: remove one leading ctx-lh- or
ctx-rh- marker. -/
def dropCtx (s : List Char) : List Char :=
  match stripCI ['c', 't', 'x', '-', 'l', 'h', '-'] s with
  | some r => r
  | none =>
    match stripCI ['c', 't', 'x', '-', 'r', 'h', '-'] s with
    | some r => r
    | none => s

/-- Second re.sub of strip_hemi_prefix: remove one leading lh or rh plus a
separator. -/
def dropLhRh (s : List Char) : List Char :=
  match dropMarkSep ['l', 'h'] s with
  | some r => r
  | none =>
    match dropMarkSep ['r', 'h'] s with
    | some r => r
    | none => s

/-- Third re.sub of strip_hemi_prefix: remove one leading L, R, Left, Right,
LH or RH plus a separator, alternatives tried in source order. -/
def dropSideWord (s : List Char) : List Char :=
  match dropMarkSep ['l'] s with
  | some r => r
  | none =>
    match dropMarkSep ['r'] s with
    | some r => r
    | none =>
      match dropMarkSep ['l', 'e', 'f', 't'] s with
      | some r => r
      | none =>
        match dropMarkSep ['r', 'i', 'g', 'h', 't'] s with
        | some r => r
        | none =>
          match dropMarkSep ['l', 'h'] s with
          | some r => r
          | none =>
            match dropMarkSep ['r', 'h'] s with
            | some r => r
            | none => s

/-- Fourth re.sub of strip_hemi_prefix: remove one trailing _ROI,
case-insensitively (the reversed pattern word is ior_). -/
def dropRoi (s : List Char) : List Char :=
  match stripCI ['i', 'o', 'r', '_'] s.reverse with
  | some r => r.reverse
  | none => s

/-- strip_hemi_prefix of tidy_LUTS_qsirecon.py: its four re.sub steps in
source order. -/
def strip_hemi_marks (s : List Char) : List Char :=
  dropRoi (dropSideWord (dropLhRh (dropCtx s)))

/-- python str.strip(): trim whitespace from both ends. -/
def pyStripWs (s : List Char) : List Char :=
  ((s.dropWhile isWsChar).reverse.dropWhile isWsChar).reverse

/-- normalized_lr of tidy_LUTS_qsirecon.py: detected hemisphere and the
whitespace-trimmed base name. -/
def normalized_lr (s : List Char) : Option Char × List Char :=
  (detect_hemi s, pyStripWs (strip_hemi_marks s))

/-- Insert a value into an ascending duplicate-free list, keeping it so. -/
def insDedup (x : Int) : List Int → List Int
  | [] => [x]
  | y :: ys =>
    if x < y then x :: y :: ys
    else if x = y then y :: ys
    else y :: insDedup x ys

/-- np.unique: the distinct values of an array, ascending. -/
def np_unique (l : List Int) : List Int := l.foldr insDedup []

/-- python dict lookup in an association list. -/
def lookupD {α : Type} (m : List (Int × α)) (v : Int) : Option α :=
  (m.find? (fun p => p.1 == v)).map (fun p => p.2)

/-- enumerate(vs, 1): pair each value of the list with offset + its 1-based
position. -/
def remapAux (off : Int) : List Int → List (Int × Int)
  | [] => []
  | v :: vs => (v, off + 1) :: remapAux (off + 1) vs

/-- The remap-dictionary construction inlined in stitch_thomas_into_aparc:
for i, v in enumerate(sorted(np.unique(values)), 1): map[v] = offset + i. -/
def build_remap (vals : List Int) (off : Int) : List (Int × Int) :=
  remapAux off (np_unique vals)

/-- Voxel accessor on a flattened volume (out-of-range reads give the
background value 0; every use is in range). -/
def vox (l : List Int) (i : Nat) : Int := l.getD i 0

/-- th_mask = (left > 0) | (right > 0). -/
def th_mask (left right : List Int) : List Bool :=
  List.zipWith (fun l r => decide (0 < l) || decide (0 < r)) left right

/-- out = data.copy(); out[mask] = 0. -/
def zero_masked (data : List Int) (mask : List Bool) : List Int :=
  List.zipWith (fun d m => if m then 0 else d) data mask

/-- re = np.zeros_like(v); for orig, new in m.items(): re[v == orig] = new.
Each voxel value matches at most one key of the dictionary. -/
def applyRemap (m : List (Int × Int)) (v : List Int) : List Int :=
  v.map (fun x => (lookupD m x).getD 0)

/-- out[sec > 0] = sec[sec > 0]. -/
def overlayPos (base sec : List Int) : List Int :=
  List.zipWith (fun o s => if 0 < s then s else o) base sec

/-- The per-side body of stitch_thomas_into_aparc: when keep_hcp_ids is set
and the side has foreground, build its remap dictionary and rewrite the
volume through it; else keep the empty dictionary and the native volume. -/
def processSide (keep : Bool) (v : List Int) (off : Int) :
    List (Int × Int) × List Int :=
  if keep && v.any (fun x => decide (0 < x)) then
    let m := build_remap (v.filter (fun x => decide (0 < x))) off
    (m, applyRemap m v)
  else ([], v)

/-- The outcome of stitch_thomas_into_aparc: the merged volume, the two remap
dictionaries it returns, and the file writes it performs (its nib.save calls),
each recorded as a (path, voxel data) pair. -/
structure StitchResult where
  out : List Int
  left_map : List (Int × Int)
  right_map : List (Int × Int)
  writes : List (String × List Int)
deriving DecidableEq

/-- stitch_thomas_into_aparc of build_custom_hcp_thomas.py over flattened
volumes sharing one shape: zero the primary inside the secondary foreground
mask, optionally remap each secondary, overlay left then right, and save the
merged volume to out_path. -/
def stitch_thomas_into_aparc (data left right : List Int) (out_path : String)
    (keep_hcp_ids : Bool) (left_offset right_offset : Int) : StitchResult :=
  let out0 := zero_masked data (th_mask left right)
  let pl := processSide keep_hcp_ids left left_offset
  let pr := processSide keep_hcp_ids right right_offset
  let out1 := overlayPos out0 pl.2
  let out2 := overlayPos out1 pr.2
  ⟨out2, pl.1, pr.1, [(out_path, out2)]⟩

/-- Failure modes of one stitch invocation. The source defines no exception
of its own: on mismatched volume shapes the elementwise array operations
raise the array library's generic error before anything is written.
shapeMismatchError is the dedicated error the specification posits; no code
path produces it. -/
inductive StitchError where
  | numpyError
  | shapeMismatchError
deriving DecidableEq

/-- stitch_thomas_into_aparc together with its failure behaviour: with the
three volumes of one shape it returns the stitched result, otherwise the
elementwise array operations fail with the library's generic error and
nothing is written. -/
def stitch_run (data left right : List Int) (out_path : String)
    (keep_hcp_ids : Bool) (left_offset right_offset : Int) :
    Except StitchError StitchResult :=
  if data.length = left.length ∧ data.length = right.length then
    .ok (stitch_thomas_into_aparc data left right out_path keep_hcp_ids
      left_offset right_offset)
  else
    .error .numpyError

/-- load_present_ids of tidy_LUTS_qsirecon.py: the distinct positive voxel
values of a volume, ascending. -/
def load_present_ids (vol : List Int) : List Int :=
  np_unique (vol.filter (fun x => decide (0 < x)))

/-- The sentinel label Unknown-idx emitted for a present id with no table
entry. -/
def unknownLabel (idx : Int) : List Char :=
  "Unknown-".data ++ (toString idx).data

/-- One row of the tidy output table: (index, label, source). -/
abbrev TRow := Int × List Char × List Char

/-- The body of the presence-filter loop of tidy_LUTS_qsirecon.main: the
first table wins, the second is consulted only on a miss, and the sentinel
is used only when both miss. -/
def resolveIdx (hcp thomas : List (Int × List Char × List Char)) (idx : Int) :
    TRow :=
  match lookupD hcp idx with
  | some e => (idx, e)
  | none =>
    match lookupD thomas idx with
    | some e => (idx, e)
    | none => (idx, unknownLabel idx, "Unknown".data)

/-- The merged view of the two lookup tables: the first wins on id
collision. -/
def mergedLookup (hcp thomas : List (Int × List Char × List Char))
    (idx : Int) : Option (List Char × List Char) :=
  match lookupD hcp idx with
  | some e => some e
  | none => lookupD thomas idx

/-- The presence filter of tidy_LUTS_qsirecon.main: one output row per id
present in the volume, ascending. -/
def filter_to_present (hcp thomas : List (Int × List Char × List Char))
    (vol : List Int) : List TRow :=
  (load_present_ids vol).map (resolveIdx hcp thomas)

/-- A cell of the tabular THOMAS lookup file as the dataframe library hands
it over. -/
inductive Cell where
  | intVal (i : Int)
  | strVal (s : List Char)
  | na
deriving DecidableEq

/-- Accumulate decimal digits; fail at the first non-digit. -/
def parseDigitsAux : List Char → Nat → Option Nat
  | [], acc => some acc
  | c :: cs, acc =>
    if c.isDigit then parseDigitsAux cs (acc * 10 + (c.toNat - '0'.toNat))
    else none

/-- A non-empty run of decimal digits. -/
def parseDigits : List Char → Option Nat
  | [] => none
  | l => parseDigitsAux l 0

/-- python int(...) on a string: optional surrounding whitespace, optional
sign, then decimal digits. -/
def pyIntOfStr (s : List Char) : Option Int :=
  match pyStripWs s with
  | '-' :: ds => (parseDigits ds).map (fun n => -(n : Int))
  | '+' :: ds => (parseDigits ds).map (fun n => (n : Int))
  | ds => (parseDigits ds).map (fun n => (n : Int))

/-- int(row[col]) with its failure: the raised exception is modelled as none
and makes the caller skip the row. -/
def cellToInt : Cell → Option Int
  | .intVal i => some i
  | .strVal s => pyIntOfStr s
  | .na => none

/-- str(row[col]). -/
def cellToStr : Cell → List Char
  | .intVal i => (toString i).data
  | .strVal s => s
  | .na => "nan".data

/-- pd.notna on one cell. -/
def cellNotNA : Cell → Bool
  | .na => false
  | _ => true

/-- Lowercase a python string. -/
def lowerStr (s : List Char) : List Char := s.map lowerc

/-- Exact prefix test on character lists. -/
def startsWithChars : List Char → List Char → Bool
  | [], _ => true
  | _ :: _, [] => false
  | p :: ps, c :: cs => p == c && startsWithChars ps cs

/-- Contiguous substring test on character lists (python in on str). -/
def containsSub (pat : List Char) : List Char → Bool
  | [] => pat.isEmpty
  | c :: cs => startsWithChars pat (c :: cs) || containsSub pat cs

/-- The id-like column of the THOMAS lookup: the first column whose lowercase
name is id, index or label_id. -/
def findIdCol (cols : List (List Char)) : Option Nat :=
  cols.findIdx? (fun c =>
    lowerStr c == "id".data || lowerStr c == "index".data ||
    lowerStr c == "label_id".data)

/-- The name-like column: the first column whose lowercase name is name or
label. -/
def findNameCol (cols : List (List Char)) : Option Nat :=
  cols.findIdx? (fun c =>
    lowerStr c == "name".data || lowerStr c == "label".data)

/-- The optional hemisphere column: the first column whose lowercase name
contains hemi. -/
def findHemiCol (cols : List (List Char)) : Option Nat :=
  cols.findIdx? (fun c => containsSub "hemi".data (lowerStr c))

/-- Failures of load_thomas_lut: the missing-column ValueError (the schema
error of the specification) and the IndexError raised by taking character
zero of an empty stripped hemisphere cell. -/
inductive LutError where
  | schemaError
  | indexError
deriving DecidableEq

/-- dict assignment mapping[idx] = v: overwrite in place or append. -/
def dictUpsert {α : Type} (k : Int) (v : α) :
    List (Int × α) → List (Int × α)
  | [] => [(k, v)]
  | p :: ps => if p.1 == k then (k, v) :: ps else p :: dictUpsert k v ps

/-- The hemisphere of one THOMAS lookup row: the explicit column wins when
its first character after strip and uppercase is L or R; an empty non-null
hemisphere cell raises IndexError; otherwise the hemisphere is inferred from
the raw name. -/
def rowHemi (chemi : Option Nat) (r : List Cell) (raw : List Char) :
    Except LutError (Option Char) :=
  match chemi with
  | none => .ok (detect_hemi raw)
  | some ch =>
    if cellNotNA (r.getD ch .na) then
      match (pyStripWs (cellToStr (r.getD ch .na))).map Char.toUpper with
      | [] => .error .indexError
      | c :: _ =>
        if c == 'L' || c == 'R' then .ok (some c)
        else .ok (detect_hemi raw)
    else .ok (detect_hemi raw)

/-- The row loop of load_thomas_lut: rows whose id cell does not parse as an
integer are skipped; each kept row contributes hemi-dash-base or the bare
base as its label, tagged THOMAS. -/
def thomasRowsProc (ci cn : Nat) (chemi : Option Nat) :
    List (List Cell) → List (Int × List Char × List Char) →
    Except LutError (List (Int × List Char × List Char))
  | [], acc => .ok acc
  | r :: rs, acc =>
    match cellToInt (r.getD ci .na) with
    | none => thomasRowsProc ci cn chemi rs acc
    | some idx =>
      let raw := cellToStr (r.getD cn .na)
      match rowHemi chemi r raw with
      | .error e => .error e
      | .ok h =>
        let base := strip_hemi_marks raw
        let label := match h with
          | some c => c :: '-' :: base
          | none => base
        thomasRowsProc ci cn chemi rs
          (dictUpsert idx (label, "THOMAS".data) acc)

/-- load_thomas_lut of tidy_LUTS_qsirecon.py over an already-parsed tabular
file given as its header column names plus its rows of cells. -/
def load_thomas_lut (cols : List (List Char)) (rows : List (List Cell)) :
    Except LutError (List (Int × List Char × List Char)) :=
  match findIdCol cols, findNameCol cols with
  | some ci, some cn => thomasRowsProc ci cn (findHemiCol cols) rows []
  | _, _ => .error .schemaError

/-- One row of the label TSV written by build_custom_hcp_thomas.py. -/
structure Row where
  id : Int
  name : List Char
  hemi : List Char
  source : List Char
deriving DecidableEq

/-- Per-hemisphere body of make_hcp_rows_from_annots: the fifth column of the
color table holds the label ids, aligned with the names by index; a missing
color table falls back to the distinct values of the labels array; a color
table with fewer than five columns is a RuntimeError. -/
def hcpRowsForHemi (hemi : List Char) (labels : List Int)
    (ctab : Option (List (List Int))) (names : List (List Char)) :
    Except Unit (List Row) :=
  match ctab with
  | none =>
    let label_ids := np_unique labels
    if names.length = label_ids.length then
      .ok ((label_ids.zip names).map
        (fun p => ⟨p.1, p.2, hemi, "HCP-MMP1".data⟩))
    else
      .ok (label_ids.map
        (fun lid => ⟨lid, "label_".data ++ (toString lid).data, hemi,
          "HCP-MMP1".data⟩))
  | some table =>
    if table.all (fun r => decide (5 ≤ r.length)) then
      .ok (((table.map (fun r => r.getD 4 0)).zip names).map
        (fun p => ⟨p.1, p.2, hemi, "HCP-MMP1".data⟩))
    else .error ()

/-- make_hcp_rows_from_annots over the contents of the two annotation files
(labels, color table, names), left hemisphere first. -/
def make_hcp_rows_from_annots
    (lhLabels : List Int) (lhCtab : Option (List (List Int)))
    (lhNames : List (List Char))
    (rhLabels : List Int) (rhCtab : Option (List (List Int)))
    (rhNames : List (List Char)) : Except Unit (List Row) :=
  match hcpRowsForHemi "L".data lhLabels lhCtab lhNames with
  | .error e => .error e
  | .ok l =>
    match hcpRowsForHemi "R".data rhLabels rhCtab rhNames with
    | .error e => .error e
    | .ok r => .ok (l ++ r)

/-- sorted(map.items()): insertion sort of the pairs by key (the keys of
every dictionary this is applied to are distinct). -/
def insPairAsc (x : Int × Int) : List (Int × Int) → List (Int × Int)
  | [] => [x]
  | y :: ys => if x.1 ≤ y.1 then x :: y :: ys else y :: insPairAsc x ys

/-- Sort dictionary items ascending by key. -/
def sortPairs (l : List (Int × Int)) : List (Int × Int) :=
  l.foldr insPairAsc []

/-- make_thomas_rows_from_maps: one row per remap entry, named from the
inferred value-to-name map with a THOMAS_orig placeholder fallback. -/
def make_thomas_rows_from_maps (left_map right_map : List (Int × Int))
    (l_names r_names : List (Int × List Char)) : List Row :=
  (sortPairs left_map).map (fun p =>
    ⟨p.2, (lookupD l_names p.1).getD ("THOMAS_".data ++ (toString p.1).data),
      "L".data, "THOMAS".data⟩)
  ++ (sortPairs right_map).map (fun p =>
    ⟨p.2, (lookupD r_names p.1).getD ("THOMAS_".data ++ (toString p.1).data),
      "R".data, "THOMAS".data⟩)

/-! Helper lemmas. -/

theorem getD_zipWith {α β γ : Type} (f : α → β → γ) (a : List α) (b : List β)
    (i : Nat) (x : α) (y : β) (z : γ) (ha : i < a.length) (hb : i < b.length) :
    (List.zipWith f a b).getD i z = f (a.getD i x) (b.getD i y) := by
  induction a generalizing b i with
  | nil => simp at ha
  | cons a0 a1 ih =>
    cases b with
    | nil => simp at hb
    | cons b0 b1 =>
      cases i with
      | zero => rfl
      | succ n =>
        exact ih b1 n (Nat.lt_of_succ_lt_succ ha) (Nat.lt_of_succ_lt_succ hb)

theorem getD_map {α β : Type} (f : α → β) (l : List α) (i : Nat) (x : α)
    (y : β) (h : i < l.length) :
    (l.map f).getD i y = f (l.getD i x) := by
  induction l generalizing i with
  | nil => simp at h
  | cons a0 a1 ih =>
    cases i with
    | zero => rfl
    | succ n => exact ih n (Nat.lt_of_succ_lt_succ h)

theorem mem_insDedup {a x : Int} : ∀ {l : List Int},
    a ∈ insDedup x l ↔ a = x ∨ a ∈ l := by
  intro l
  induction l with
  | nil => simp [insDedup]
  | cons y ys ih =>
    by_cases h1 : x < y
    · simp [insDedup, h1]
    · by_cases h2 : x = y
      · subst h2
        simp [insDedup, h1]
      · simp [insDedup, h1, h2, ih]
        tauto

theorem sorted_insDedup {x : Int} : ∀ {l : List Int},
    l.Sorted (· < ·) → (insDedup x l).Sorted (· < ·) := by
  intro l
  induction l with
  | nil => intro _; simp [insDedup]
  | cons y ys ih =>
    intro h
    rw [List.sorted_cons] at h
    obtain ⟨hy, hys⟩ := h
    by_cases h1 : x < y
    · rw [show insDedup x (y :: ys) = x :: y :: ys by simp [insDedup, h1]]
      rw [List.sorted_cons]
      refine ⟨?_, by rw [List.sorted_cons]; exact ⟨hy, hys⟩⟩
      intro b hb
      rcases List.mem_cons.mp hb with rfl | hb
      · exact h1
      · exact lt_trans h1 (hy b hb)
    · by_cases h2 : x = y
      · rw [show insDedup x (y :: ys) = y :: ys by simp [insDedup, h1, h2]]
        rw [List.sorted_cons]; exact ⟨hy, hys⟩
      · rw [show insDedup x (y :: ys) = y :: insDedup x ys by
          simp [insDedup, h1, h2]]
        rw [List.sorted_cons]
        refine ⟨?_, ih hys⟩
        intro b hb
        rcases mem_insDedup.mp hb with rfl | hb
        · omega
        · exact hy b hb

theorem np_unique_sorted (l : List Int) : (np_unique l).Sorted (· < ·) := by
  induction l with
  | nil => simp [np_unique]
  | cons x xs ih => exact sorted_insDedup ih

theorem mem_np_unique {a : Int} : ∀ {l : List Int},
    a ∈ np_unique l ↔ a ∈ l := by
  intro l
  induction l with
  | nil => simp [np_unique]
  | cons x xs ih =>
    show a ∈ insDedup x (np_unique xs) ↔ _
    rw [mem_insDedup, ih]
    simp

theorem lookupD_nil {α : Type} (q : Int) : lookupD ([] : List (Int × α)) q = none := rfl

theorem lookupD_cons {α : Type} (k : Int) (v : α) (m : List (Int × α))
    (q : Int) :
    lookupD ((k, v) :: m) q = if k = q then some v else lookupD m q := by
  unfold lookupD
  rw [List.find?_cons]
  by_cases h : k = q
  · simp [h]
  · have hb : (k == q) = false := beq_eq_false_iff_ne.mpr h
    simp [hb, h]

theorem lookup_remapAux_get : ∀ (l : List Int) (off : Int) (i : Nat)
    (h : i < l.length), l.Sorted (· < ·) →
    lookupD (remapAux off l) (l.get ⟨i, h⟩) = some (off + (i : Int) + 1) := by
  intro l
  induction l with
  | nil => intro off i h; simp at h
  | cons x t ih =>
    intro off i h hs
    rw [List.sorted_cons] at hs
    obtain ⟨hx, ht⟩ := hs
    cases i with
    | zero =>
      show lookupD ((x, off + 1) :: remapAux (off + 1) t) x = _
      rw [lookupD_cons]
      simp
    | succ n =>
      have hn : n < t.length := Nat.lt_of_succ_lt_succ h
      show lookupD ((x, off + 1) :: remapAux (off + 1) t) (t.get ⟨n, hn⟩) = _
      rw [lookupD_cons]
      have hxne : x ≠ t.get ⟨n, hn⟩ := ne_of_lt (hx _ (t.get_mem _ _))
      rw [if_neg hxne, ih (off + 1) n hn ht]
      congr 1
      push_cast
      ring

theorem lookup_remapAux_not_mem : ∀ (l : List Int) (off v : Int), v ∉ l →
    lookupD (remapAux off l) v = none := by
  intro l
  induction l with
  | nil => intro off v _; rfl
  | cons x t ih =>
    intro off v h
    show lookupD ((x, off + 1) :: remapAux (off + 1) t) v = none
    rw [lookupD_cons, if_neg (fun hxv => h (by
      rw [← hxv]; exact List.mem_cons_self x t))]
    exact ih (off + 1) v (fun hm => h (List.mem_cons_of_mem x hm))

theorem remapAux_length (off : Int) (l : List Int) :
    (remapAux off l).length = l.length := by
  induction l generalizing off with
  | nil => rfl
  | cons x t ih => simp [remapAux, ih]

theorem processSide_length (keep : Bool) (v : List Int) (off : Int) :
    ((processSide keep v off).2).length = v.length := by
  unfold processSide
  split
  · simp [applyRemap]
  · rfl

theorem vox_overlayPos (b s : List Int) (i : Nat) (hb : i < b.length)
    (hs : i < s.length) :
    vox (overlayPos b s) i = if 0 < vox s i then vox s i else vox b i :=
  getD_zipWith _ b s i 0 0 0 hb hs

theorem vox_applyRemap (m : List (Int × Int)) (v : List Int) (i : Nat)
    (h : i < v.length) :
    vox (applyRemap m v) i = (lookupD m (vox v i)).getD 0 :=
  getD_map _ v i 0 0 h

theorem length_th_mask (l r : List Int) :
    (th_mask l r).length = min l.length r.length := by
  simp [th_mask]

theorem length_zero_masked (d : List Int) (m : List Bool) :
    (zero_masked d m).length = min d.length m.length := by
  simp [zero_masked]

theorem length_overlayPos (b s : List Int) :
    (overlayPos b s).length = min b.length s.length := by
  simp [overlayPos]

theorem vox_zero_masked (d l r : List Int) (i : Nat) (hd : i < d.length)
    (hl : i < l.length) (hr : i < r.length) :
    vox (zero_masked d (th_mask l r)) i =
      if 0 < vox l i ∨ 0 < vox r i then 0 else vox d i := by
  have hm : i < (th_mask l r).length := by
    rw [length_th_mask]; omega
  have h2 : (th_mask l r).getD i false =
      (decide (0 < vox l i) || decide (0 < vox r i)) :=
    getD_zipWith _ l r i 0 0 false hl hr
  have h1 : vox (zero_masked d (th_mask l r)) i =
      if (th_mask l r).getD i false then 0 else vox d i :=
    getD_zipWith _ d (th_mask l r) i 0 false 0 hd hm
  rw [h1, h2]
  by_cases hcl : 0 < vox l i
  · simp [hcl]
  · by_cases hcr : 0 < vox r i
    · simp [hcl, hcr]
    · simp [hcl, hcr]

theorem vox_stitch (data left right : List Int) (p : String) (k : Bool)
    (lo ro : Int) (h1 : data.length = left.length)
    (h2 : data.length = right.length) (i : Nat) (hi : i < data.length) :
    vox (stitch_thomas_into_aparc data left right p k lo ro).out i =
      (if 0 < vox (processSide k right ro).2 i then
        vox (processSide k right ro).2 i
      else if 0 < vox (processSide k left lo).2 i then
        vox (processSide k left lo).2 i
      else if 0 < vox left i ∨ 0 < vox right i then 0
      else vox data i) := by
  have hL2 : ((processSide k left lo).2).length = left.length :=
    processSide_length k left lo
  have hR2 : ((processSide k right ro).2).length = right.length :=
    processSide_length k right ro
  have hout0 : (zero_masked data (th_mask left right)).length = data.length := by
    rw [length_zero_masked, length_th_mask]; omega
  have hout1 : (overlayPos (zero_masked data (th_mask left right))
      (processSide k left lo).2).length = data.length := by
    rw [length_overlayPos, hout0, hL2]; omega
  show vox (overlayPos (overlayPos (zero_masked data (th_mask left right))
    (processSide k left lo).2) (processSide k right ro).2) i = _
  rw [vox_overlayPos _ _ i (by omega) (by omega)]
  rw [vox_overlayPos _ _ i (by omega) (by omega)]
  rw [vox_zero_masked data left right i hi (by omega) (by omega)]

theorem stitch_out_length (data left right : List Int) (p : String) (k : Bool)
    (lo ro : Int) (h1 : data.length = left.length)
    (h2 : data.length = right.length) :
    (stitch_thomas_into_aparc data left right p k lo ro).out.length
      = data.length := by
  show (overlayPos (overlayPos (zero_masked data (th_mask left right))
    (processSide k left lo).2) (processSide k right ro).2).length = _
  rw [length_overlayPos, length_overlayPos, length_zero_masked, length_th_mask,
    processSide_length, processSide_length]
  omega

theorem dropWhile_idem {α : Type} (p : α → Bool) (l : List α) :
    (l.dropWhile p).dropWhile p = l.dropWhile p := by
  induction l with
  | nil => rfl
  | cons x xs ih =>
    by_cases h : p x
    · simp [List.dropWhile_cons, h, ih]
    · simp [List.dropWhile_cons, h]

theorem exists_prefix_dropWhile {α : Type} (p : α → Bool) (l : List α) :
    ∃ t, t ++ l.dropWhile p = l := by
  induction l with
  | nil => exact ⟨[], rfl⟩
  | cons x xs ih =>
    by_cases h : p x
    · obtain ⟨t, ht⟩ := ih
      exact ⟨x :: t, by simp [List.dropWhile_cons, h, ht]⟩
    · exact ⟨[], by simp [List.dropWhile_cons, h]⟩

theorem length_dropWhile_le' {α : Type} (p : α → Bool) (l : List α) :
    (l.dropWhile p).length ≤ l.length := by
  induction l with
  | nil => simp
  | cons x xs ih =>
    by_cases h : p x
    · rw [List.dropWhile_cons, if_pos h]
      exact Nat.le_succ_of_le ih
    · rw [List.dropWhile_cons, if_neg h]

theorem dropWhile_eq_self_head {α : Type} (p : α → Bool) (x : α)
    (xs : List α) (h : (x :: xs).dropWhile p = x :: xs) : p x = false := by
  by_cases hx : p x
  · exfalso
    rw [List.dropWhile_cons, if_pos hx] at h
    have h1 : (List.dropWhile p xs).length = xs.length + 1 := by
      rw [h]; simp
    have h2 := length_dropWhile_le' p xs
    omega
  · exact Bool.eq_false_iff.mpr (by simpa using hx)

theorem dropWhile_rt {α : Type} (p : α → Bool) (a : List α)
    (ha : a.dropWhile p = a) :
    ((a.reverse.dropWhile p).reverse).dropWhile p
      = (a.reverse.dropWhile p).reverse := by
  obtain ⟨t, ht⟩ := exists_prefix_dropWhile p a.reverse
  have ha2 : a = (a.reverse.dropWhile p).reverse ++ t.reverse := by
    have hrev := congrArg List.reverse ht
    simpa using hrev.symm
  cases hdr : (a.reverse.dropWhile p).reverse with
  | nil => simp [hdr]
  | cons x xs =>
    have hax : a = x :: (xs ++ t.reverse) := by
      rw [ha2, hdr]; simp
    have hpx : p x = false := by
      apply dropWhile_eq_self_head p x (xs ++ t.reverse)
      rw [← hax]
      exact ha
    rw [List.dropWhile_cons]
    simp [hpx]

theorem pyStripWs_idem (s : List Char) :
    pyStripWs (pyStripWs s) = pyStripWs s := by
  have ha : (s.dropWhile isWsChar).dropWhile isWsChar
      = s.dropWhile isWsChar := dropWhile_idem _ _
  have h1 : (pyStripWs s).dropWhile isWsChar = pyStripWs s :=
    dropWhile_rt isWsChar (s.dropWhile isWsChar) ha
  show ((((pyStripWs s).dropWhile isWsChar).reverse.dropWhile
    isWsChar).reverse) = pyStripWs s
  rw [h1]
  have h2 : (pyStripWs s).reverse
      = (s.dropWhile isWsChar).reverse.dropWhile isWsChar := by
    show ((((s.dropWhile isWsChar).reverse.dropWhile
      isWsChar).reverse).reverse) = _
    rw [List.reverse_reverse]
  have h3 : (pyStripWs s).reverse.dropWhile isWsChar
      = (pyStripWs s).reverse := by
    rw [h2]; exact dropWhile_idem _ _
  rw [h3, List.reverse_reverse]

theorem matchesMark_false_dropMarkSep {w s : List Char}
    (h : matchesMark w s = false) : dropMarkSep w s = none := by
  unfold matchesMark at h
  unfold dropMarkSep
  cases hc : stripCI w s with
  | none => rfl
  | some r =>
    cases r with
    | nil => rfl
    | cons c cs =>
      rw [hc] at h
      simp only [] at h
      simp [h]

theorem detect_none_parts {s : List Char} (h : detect_hemi s = none) :
    matchesMark ['l'] s = false ∧
    matchesMark ['l', 'e', 'f', 't'] s = false ∧
    matchesMark ['l', 'h'] s = false ∧
    matchesCtx ['l', 'h'] s = false ∧
    matchesMark ['r'] s = false ∧
    matchesMark ['r', 'i', 'g', 'h', 't'] s = false ∧
    matchesMark ['r', 'h'] s = false ∧
    matchesCtx ['r', 'h'] s = false := by
  unfold detect_hemi at h
  split at h
  · exact absurd h (by simp)
  · split at h
    · exact absurd h (by simp)
    · rename_i h1 h2
      simp only [Bool.or_eq_true, not_or, Bool.not_eq_true] at h1 h2
      tauto

theorem dropCtx_of_detect_none {s : List Char} (h : detect_hemi s = none) :
    dropCtx s = s := by
  obtain ⟨_, _, _, h4, _, _, _, h8⟩ := detect_none_parts h
  unfold matchesCtx at h4 h8
  rw [show (['c', 't', 'x', '-'] ++ ['l', 'h'] ++ ['-'])
    = ['c', 't', 'x', '-', 'l', 'h', '-'] from rfl] at h4
  rw [show (['c', 't', 'x', '-'] ++ ['r', 'h'] ++ ['-'])
    = ['c', 't', 'x', '-', 'r', 'h', '-'] from rfl] at h8
  unfold dropCtx
  cases hc1 : stripCI ['c', 't', 'x', '-', 'l', 'h', '-'] s with
  | some r => rw [hc1] at h4; simp at h4
  | none =>
    cases hc2 : stripCI ['c', 't', 'x', '-', 'r', 'h', '-'] s with
    | some r => rw [hc2] at h8; simp at h8
    | none => rfl

theorem dropLhRh_of_detect_none {s : List Char} (h : detect_hemi s = none) :
    dropLhRh s = s := by
  obtain ⟨_, _, h3, _, _, _, h7, _⟩ := detect_none_parts h
  unfold dropLhRh
  rw [matchesMark_false_dropMarkSep h3, matchesMark_false_dropMarkSep h7]

theorem dropSideWord_of_detect_none {s : List Char}
    (h : detect_hemi s = none) : dropSideWord s = s := by
  obtain ⟨h1, h2, h3, _, h5, h6, h7, _⟩ := detect_none_parts h
  unfold dropSideWord
  rw [matchesMark_false_dropMarkSep h1, matchesMark_false_dropMarkSep h5,
    matchesMark_false_dropMarkSep h2, matchesMark_false_dropMarkSep h6,
    matchesMark_false_dropMarkSep h3, matchesMark_false_dropMarkSep h7]

theorem strip_fix_of_detect_none {s : List Char} (h : detect_hemi s = none)
    (hroi : dropRoi s = s) : strip_hemi_marks s = s := by
  unfold strip_hemi_marks
  rw [dropCtx_of_detect_none h, dropLhRh_of_detect_none h,
    dropSideWord_of_detect_none h, hroi]

theorem resolveIdx_fst (hcp thomas : List (Int × List Char × List Char))
    (idx : Int) : (resolveIdx hcp thomas idx).1 = idx := by
  unfold resolveIdx
  cases lookupD hcp idx with
  | some e => rfl
  | none =>
    cases lookupD thomas idx with
    | some e => rfl
    | none => rfl

theorem detect_hemi_unknown (idx : Int) :
    detect_hemi (unknownLabel idx) = none := by
  unfold unknownLabel
  rw [show "Unknown-".data = ['U', 'n', 'k', 'n', 'o', 'w', 'n', '-']
    from rfl]
  simp [detect_hemi, matchesMark, matchesCtx, stripCI, lowerc, isSepChar,
    List.cons_append, List.nil_append]

theorem resolveIdx_merged_some (hcp thomas : List (Int × List Char × List Char))
    (idx : Int) (e : List Char × List Char)
    (h : mergedLookup hcp thomas idx = some e) :
    resolveIdx hcp thomas idx = (idx, e) := by
  unfold mergedLookup at h
  unfold resolveIdx
  cases hc : lookupD hcp idx with
  | some a => rw [hc] at h; cases h; rfl
  | none =>
    rw [hc] at h
    cases ht : lookupD thomas idx with
    | some b => rw [ht] at h; cases h; rfl
    | none => rw [ht] at h; cases h

theorem resolveIdx_merged_none (hcp thomas : List (Int × List Char × List Char))
    (idx : Int) (h : mergedLookup hcp thomas idx = none) :
    resolveIdx hcp thomas idx = (idx, unknownLabel idx, "Unknown".data) := by
  unfold mergedLookup at h
  unfold resolveIdx
  cases hc : lookupD hcp idx with
  | some a => rw [hc] at h; cases h
  | none =>
    rw [hc] at h
    cases ht : lookupD thomas idx with
    | some b => rw [ht] at h; cases h
    | none => rfl

theorem rowHemi_not_schema (chemi : Option Nat) (r : List Cell)
    (raw : List Char) : rowHemi chemi r raw ≠ .error .schemaError := by
  unfold rowHemi
  split
  · simp
  · split
    · split
      · simp
      · split <;> simp
    · simp

theorem thomasRowsProc_skip (ci cn : Nat) (chemi : Option Nat)
    (r : List Cell) (rs : List (List Cell))
    (acc : List (Int × List Char × List Char))
    (h : cellToInt (r.getD ci .na) = none) :
    thomasRowsProc ci cn chemi (r :: rs) acc
      = thomasRowsProc ci cn chemi rs acc := by
  conv_lhs => rw [thomasRowsProc]
  rw [h]

theorem thomasRowsProc_no_schema : ∀ (rows : List (List Cell)) (ci cn : Nat)
    (chemi : Option Nat) (acc : List (Int × List Char × List Char)),
    thomasRowsProc ci cn chemi rows acc ≠ .error .schemaError := by
  intro rows
  induction rows with
  | nil =>
    intro ci cn chemi acc
    simp [thomasRowsProc]
  | cons r rs ih =>
    intro ci cn chemi acc
    unfold thomasRowsProc
    split
    · exact ih ci cn chemi acc
    · dsimp only
      split
      · rename_i e heq
        intro hcontra
        injection hcontra with h2
        subst h2
        exact rowHemi_not_schema chemi r _ heq
      · exact ih ci cn chemi _

theorem vox_mem {l : List Int} {i : Nat} (h : i < l.length) :
    vox l i ∈ l := by
  unfold vox
  rw [List.getD_eq_getElem l 0 h]
  exact List.getElem_mem h

theorem processSide_true_eq (v : List Int) (off : Int)
    (hany : v.any (fun x => decide (0 < x)) = true) :
    processSide true v off
      = (build_remap (v.filter (fun x => decide (0 < x))) off,
         applyRemap (build_remap (v.filter (fun x => decide (0 < x))) off)
           v) := by
  simp [processSide, hany]

theorem processSide_false_any (v : List Int) (off : Int)
    (hany : v.any (fun x => decide (0 < x)) = false) :
    processSide true v off = ([], v) := by
  simp [processSide, hany]

theorem processSide_remap_val (v : List Int) (off : Int) (i : Nat)
    (hi : i < v.length) (hpos : 0 < vox v i) :
    ∃ j : Nat, j < (np_unique (v.filter (fun x => decide (0 < x)))).length ∧
      lookupD (processSide true v off).1 (vox v i)
        = some (off + (j : Int) + 1) ∧
      vox (processSide true v off).2 i = off + (j : Int) + 1 := by
  have hmem : vox v i ∈ v := vox_mem hi
  have hany : v.any (fun x => decide (0 < x)) = true := by
    rw [List.any_eq_true]
    exact ⟨vox v i, hmem, by simpa using hpos⟩
  have hps := processSide_true_eq v off hany
  have hmemf : vox v i ∈ v.filter (fun x => decide (0 < x)) :=
    List.mem_filter.mpr ⟨hmem, by simpa using hpos⟩
  have hmemu : vox v i ∈ np_unique (v.filter (fun x => decide (0 < x))) :=
    mem_np_unique.mpr hmemf
  obtain ⟨⟨j, hj⟩, hget⟩ := List.mem_iff_get.mp hmemu
  have hlook : lookupD (build_remap (v.filter (fun x => decide (0 < x))) off)
      (vox v i) = some (off + (j : Int) + 1) := by
    show lookupD (remapAux off
      (np_unique (v.filter (fun x => decide (0 < x))))) (vox v i) = _
    rw [← hget]
    exact lookup_remapAux_get _ off j hj (np_unique_sorted _)
  refine ⟨j, hj, ?_, ?_⟩
  · rw [hps]
    exact hlook
  · rw [hps]
    show vox (applyRemap _ v) i = _
    rw [vox_applyRemap _ v i hi, hlook]
    rfl

theorem processSide_nonpos (v : List Int) (off : Int) (i : Nat)
    (hi : i < v.length) (hnp : vox v i ≤ 0) :
    vox (processSide true v off).2 i ≤ 0 := by
  cases hany : v.any (fun x => decide (0 < x)) with
  | true =>
    rw [processSide_true_eq v off hany]
    show vox (applyRemap _ v) i ≤ 0
    rw [vox_applyRemap _ v i hi]
    have hnmem : vox v i ∉ np_unique (v.filter (fun x => decide (0 < x))) := by
      intro hmem
      have h2 := (List.mem_filter.mp (mem_np_unique.mp hmem)).2
      simp at h2
      omega
    rw [show lookupD (build_remap (v.filter (fun x => decide (0 < x))) off)
      (vox v i) = none from lookup_remapAux_not_mem _ off _ hnmem]
    simp
  | false =>
    rw [processSide_false_any v off hany]
    exact hnp

theorem insPairAsc_perm (x : Int × Int) (l : List (Int × Int)) :
    (insPairAsc x l).Perm (x :: l) := by
  induction l with
  | nil => exact List.Perm.refl _
  | cons y ys ih =>
    by_cases h : x.1 ≤ y.1
    · rw [show insPairAsc x (y :: ys) = x :: y :: ys by
        simp [insPairAsc, h]]
    · rw [show insPairAsc x (y :: ys) = y :: insPairAsc x ys by
        simp [insPairAsc, h]]
      exact (ih.cons y).trans (List.Perm.swap x y ys)

theorem sortPairs_perm (l : List (Int × Int)) : (sortPairs l).Perm l := by
  induction l with
  | nil => exact List.Perm.refl _
  | cons x xs ih =>
    show (insPairAsc x (sortPairs xs)).Perm (x :: xs)
    exact (insPairAsc_perm x (sortPairs xs)).trans (ih.cons x)

theorem remapAux_snd_bounds : ∀ (l : List Int) (off : Int) (q : Int × Int),
    q ∈ remapAux off l →
    off + 1 ≤ q.2 ∧ q.2 ≤ off + (l.length : Int) := by
  intro l
  induction l with
  | nil => intro off q h; simp [remapAux] at h
  | cons x t ih =>
    intro off q h
    rw [show remapAux off (x :: t) = (x, off + 1) :: remapAux (off + 1) t
      from rfl] at h
    rcases List.mem_cons.mp h with rfl | h
    · simp [List.length_cons]
    · have hb := ih (off + 1) q h
      simp [List.length_cons]
      push_cast at hb
      omega

theorem remapAux_snd_nodup : ∀ (l : List Int) (off : Int),
    ((remapAux off l).map (fun q => q.2)).Nodup := by
  intro l
  induction l with
  | nil => intro off; simp [remapAux]
  | cons x t ih =>
    intro off
    rw [show remapAux off (x :: t) = (x, off + 1) :: remapAux (off + 1) t
      from rfl]
    rw [List.map_cons, List.nodup_cons]
    refine ⟨?_, ih (off + 1)⟩
    intro hmem
    obtain ⟨q, hq, hqe⟩ := List.mem_map.mp hmem
    have hb := remapAux_snd_bounds t (off + 1) q hq
    omega

theorem thomas_rows_ids (lm rm : List (Int × Int))
    (lnames rnames : List (Int × List Char)) :
    (make_thomas_rows_from_maps lm rm lnames rnames).map Row.id
      = (sortPairs lm).map (fun q => q.2)
        ++ (sortPairs rm).map (fun q => q.2) := by
  unfold make_thomas_rows_from_maps
  rw [List.map_append, List.map_map, List.map_map]
  rfl

/-! Claim theorems. -/

/-- C1: at every voxel where at least one secondary volume is foreground, the
stitched output value is never the primary volume's retained value: it is
either 0 or the value contributed there by a (possibly remapped) secondary
volume. -/
theorem stitch_overwrite_invariant (data left right : List Int) (p : String)
    (k : Bool) (lo ro : Int) (h1 : data.length = left.length)
    (h2 : data.length = right.length) (i : Nat) (hi : i < data.length)
    (hfg : 0 < vox left i ∨ 0 < vox right i) :
    vox (stitch_thomas_into_aparc data left right p k lo ro).out i = 0 ∨
    (0 < vox (processSide k right ro).2 i ∧
      vox (stitch_thomas_into_aparc data left right p k lo ro).out i
        = vox (processSide k right ro).2 i) ∨
    (0 < vox (processSide k left lo).2 i ∧
      vox (stitch_thomas_into_aparc data left right p k lo ro).out i
        = vox (processSide k left lo).2 i) := by
  rw [vox_stitch data left right p k lo ro h1 h2 i hi]
  by_cases hR : 0 < vox (processSide k right ro).2 i
  · rw [if_pos hR]
    exact Or.inr (Or.inl ⟨hR, rfl⟩)
  · rw [if_neg hR]
    by_cases hL : 0 < vox (processSide k left lo).2 i
    · rw [if_pos hL]
      exact Or.inr (Or.inr ⟨hL, rfl⟩)
    · rw [if_neg hL, if_pos hfg]
      exact Or.inl rfl

/-- Witness for C1 at a concrete stitch: voxel 1 is left-foreground and the
output there carries the remapped left value. -/
theorem stitch_overwrite_invariant_witness :
    vox (stitch_thomas_into_aparc [7, 7] [0, 3] [0, 0] "m" true
      8000 9000).out 1 = 0 ∨
    (0 < vox (processSide true [0, 0] 9000).2 1 ∧
      vox (stitch_thomas_into_aparc [7, 7] [0, 3] [0, 0] "m" true
        8000 9000).out 1 = vox (processSide true [0, 0] 9000).2 1) ∨
    (0 < vox (processSide true [0, 3] 8000).2 1 ∧
      vox (stitch_thomas_into_aparc [7, 7] [0, 3] [0, 0] "m" true
        8000 9000).out 1 = vox (processSide true [0, 3] 8000).2 1) :=
  stitch_overwrite_invariant [7, 7] [0, 3] [0, 0] "m" true 8000 9000
    rfl rfl 1 (by decide) (by decide)

/-- C2: build_remap maps the value at 1-based position i+1 of the ascending
sorted distinct input values to offset + i + 1, and the empty input yields
the empty dictionary. -/
theorem build_remap_rank :
    (∀ (vals : List Int) (off : Int), (∀ v ∈ vals, 0 < v) → vals.Nodup →
      ∀ (i : Nat) (h : i < (np_unique vals).length),
        lookupD (build_remap vals off) ((np_unique vals).get ⟨i, h⟩)
          = some (off + (i : Int) + 1)) ∧
    (∀ off : Int, build_remap [] off = []) := by
  constructor
  · intro vals off _ _ i h
    exact lookup_remapAux_get (np_unique vals) off i h (np_unique_sorted vals)
  · intro off; rfl

/-- Witness for C2: the second smallest value of the set 3, 5 is mapped to
8000 + 2. -/
theorem build_remap_rank_witness :
    lookupD (build_remap [5, 3] 8000)
      ((np_unique [5, 3]).get ⟨1, by decide⟩) = some 8002 := by
  have h := build_remap_rank.1 [5, 3] 8000 (by decide) (by decide) 1 (by decide)
  simpa using h

/-- C5 (amended): a stitch over volumes of mismatched shape fails with the
array library's generic error before anything is written and never with a
dedicated shape-mismatch error, which the code does not define; matching
shapes produce the stitched result with no error. -/
theorem stitch_run_shape_behaviour (data left right : List Int) (p : String)
    (k : Bool) (lo ro : Int) :
    stitch_run data left right p k lo ro
      ≠ .error StitchError.shapeMismatchError ∧
    (¬ (data.length = left.length ∧ data.length = right.length) →
      stitch_run data left right p k lo ro = .error StitchError.numpyError) ∧
    ((data.length = left.length ∧ data.length = right.length) →
      stitch_run data left right p k lo ro
        = .ok (stitch_thomas_into_aparc data left right p k lo ro)) := by
  unfold stitch_run
  by_cases h : data.length = left.length ∧ data.length = right.length
  · rw [if_pos h]
    exact ⟨by simp, fun hc => absurd h hc, fun _ => rfl⟩
  · rw [if_neg h]
    exact ⟨by simp, fun _ => rfl, fun hc => absurd hc h⟩

/-- Witness for C5: a concrete mismatched-shape stitch fails with the
generic array error; a concrete matched-shape stitch succeeds. -/
theorem stitch_run_shape_behaviour_witness :
    stitch_run [1, 2] [0, 3] [0, 0, 5] "m" true 8000 9000
      = .error StitchError.numpyError ∧
    stitch_run [1] [2] [3] "m" false 8000 9000
      = .ok (stitch_thomas_into_aparc [1] [2] [3] "m" false 8000 9000) :=
  ⟨(stitch_run_shape_behaviour [1, 2] [0, 3] [0, 0, 5] "m" true
      8000 9000).2.1 (by decide),
   (stitch_run_shape_behaviour [1] [2] [3] "m" false 8000 9000).2.2
      (by decide)⟩

/-- Counterexample for C5 as stated: on mismatched shapes the stitch fails
with the array library's generic error, which is not the dedicated
shape-mismatch error the claim requires. -/
theorem stitch_run_no_dedicated_error_cex :
    stitch_run [1, 2] [0, 3] [0, 0, 5] "m" true 8000 9000
      = .error StitchError.numpyError ∧
    StitchError.numpyError ≠ StitchError.shapeMismatchError := by
  constructor
  · rfl
  · intro h; cases h

/-- C9 counterexample: hemisphere stripping is not idempotent on every name;
the base of L_L_x still carries a leading side marker and normalizes further,
to x. -/
theorem hemi_norm_not_idem_cex :
    (normalized_lr ((normalized_lr ['L', '_', 'L', '_', 'x']).2)).2
      ≠ (normalized_lr ['L', '_', 'L', '_', 'x']).2 := by decide

/-- C9 (amended): normalization of the base name is idempotent whenever the
base carries no detectable hemisphere marker and no trailing _ROI marker. -/
theorem hemi_norm_idem_amended (name : List Char)
    (h1 : detect_hemi ((normalized_lr name).2) = none)
    (h2 : dropRoi ((normalized_lr name).2) = (normalized_lr name).2) :
    (normalized_lr ((normalized_lr name).2)).2 = (normalized_lr name).2 := by
  simp only [normalized_lr] at h1 h2 ⊢
  rw [strip_fix_of_detect_none h1 h2]
  exact pyStripWs_idem _

/-- Witness for the amended C9 at a concrete name. -/
theorem hemi_norm_idem_amended_witness :
    (normalized_lr ((normalized_lr ['l', 'h', '_', 'f', 'o', 'o']).2)).2
      = (normalized_lr ['l', 'h', '_', 'f', 'o', 'o']).2 :=
  hemi_norm_idem_amended ['l', 'h', '_', 'f', 'o', 'o'] (by decide) (by decide)

/-- C10 (amended): the stitch operation performs exactly one storage write,
the merged volume saved at the given output path; the remap dictionaries are
only returned in memory. -/
theorem stitch_single_write (data left right : List Int) (p : String)
    (k : Bool) (lo ro : Int) :
    (stitch_thomas_into_aparc data left right p k lo ro).writes
      = [(p, (stitch_thomas_into_aparc data left right p k lo ro).out)] := rfl

/-- Counterexample for C10 as stated: a concrete stitch performs a file
write (its nib.save of the merged volume), so its write set is not empty. -/
theorem stitch_writes_nonempty_cex :
    (stitch_thomas_into_aparc [5] [3] [0] "merged.mgz" true
      8000 9000).writes ≠ [] := by decide

/-- C3: the presence filter returns exactly one row per distinct foreground
value of the volume, in ascending order: present ids found in the (merged)
input table keep their entry, present ids absent from it get the sentinel
(Unknown-id, hemisphere Unknown, source Unknown), and table ids not present
in the volume are dropped. -/
theorem filter_to_present_round_trip
    (hcp thomas : List (Int × List Char × List Char)) (vol : List Int) :
    ((filter_to_present hcp thomas vol).map (fun r => r.1)
        = load_present_ids vol) ∧
    (∀ idx ∈ load_present_ids vol, ∀ e : List Char × List Char,
      mergedLookup hcp thomas idx = some e →
        (idx, e.1, e.2) ∈ filter_to_present hcp thomas vol) ∧
    (∀ idx ∈ load_present_ids vol,
      mergedLookup hcp thomas idx = none →
        ((idx, unknownLabel idx, "Unknown".data)
            ∈ filter_to_present hcp thomas vol ∧
          detect_hemi (unknownLabel idx) = none)) ∧
    (∀ r ∈ filter_to_present hcp thomas vol,
      r.1 ∈ load_present_ids vol) := by
  refine ⟨?_, ?_, ?_, ?_⟩
  · unfold filter_to_present
    rw [List.map_map]
    have hfun : ((fun r : TRow => r.1) ∘ resolveIdx hcp thomas)
        = fun idx => idx := by
      funext idx
      exact resolveIdx_fst hcp thomas idx
    rw [hfun]
    simp
  · intro idx hidx e he
    have hr : resolveIdx hcp thomas idx = (idx, e.1, e.2) :=
      resolveIdx_merged_some hcp thomas idx e he
    rw [← hr]
    exact List.mem_map_of_mem _ hidx
  · intro idx hidx hnone
    refine ⟨?_, detect_hemi_unknown idx⟩
    rw [← resolveIdx_merged_none hcp thomas idx hnone]
    exact List.mem_map_of_mem _ hidx
  · intro r hr
    unfold filter_to_present at hr
    obtain ⟨idx, hidx, rfl⟩ := List.mem_map.mp hr
    rw [resolveIdx_fst]
    exact hidx

/-- Witness for C3: volume with foreground 7 and 5; id 5 keeps its table
entry, id 7 gets the sentinel with no detectable hemisphere. -/
theorem filter_to_present_round_trip_witness :
    (((5 : Int), ("L-A".data : List Char), ("HCP-MMP1".data : List Char))
        ∈ filter_to_present [(5, "L-A".data, "HCP-MMP1".data)] []
            [0, 7, 7, 5]) ∧
    ((((7 : Int), unknownLabel 7, "Unknown".data)
        ∈ filter_to_present [(5, "L-A".data, "HCP-MMP1".data)] []
            [0, 7, 7, 5]) ∧
      detect_hemi (unknownLabel 7) = none) :=
  ⟨(filter_to_present_round_trip [(5, "L-A".data, "HCP-MMP1".data)] []
      [0, 7, 7, 5]).2.1 5 (by decide) ("L-A".data, "HCP-MMP1".data)
      (by decide),
   (filter_to_present_round_trip [(5, "L-A".data, "HCP-MMP1".data)] []
      [0, 7, 7, 5]).2.2.1 7 (by decide) (by decide)⟩

/-- C7: for every present id the first table's entry is used whenever the id
is in the first table, the second table's entry only when the first misses,
and the sentinel only when both miss. -/
theorem presence_filter_precedence
    (hcp thomas : List (Int × List Char × List Char)) (vol : List Int)
    (idx : Int) (hidx : idx ∈ load_present_ids vol) :
    (∀ e : List Char × List Char, lookupD hcp idx = some e →
      resolveIdx hcp thomas idx = (idx, e.1, e.2) ∧
      (idx, e.1, e.2) ∈ filter_to_present hcp thomas vol) ∧
    (lookupD hcp idx = none →
      ∀ e : List Char × List Char, lookupD thomas idx = some e →
        resolveIdx hcp thomas idx = (idx, e.1, e.2) ∧
        (idx, e.1, e.2) ∈ filter_to_present hcp thomas vol) ∧
    (lookupD hcp idx = none → lookupD thomas idx = none →
      resolveIdx hcp thomas idx = (idx, unknownLabel idx, "Unknown".data) ∧
      (idx, unknownLabel idx, "Unknown".data)
        ∈ filter_to_present hcp thomas vol) := by
  refine ⟨?_, ?_, ?_⟩
  · intro e he
    have hr : resolveIdx hcp thomas idx = (idx, e.1, e.2) := by
      unfold resolveIdx
      rw [he]
    exact ⟨hr, by rw [← hr]; exact List.mem_map_of_mem _ hidx⟩
  · intro hn e he
    have hr : resolveIdx hcp thomas idx = (idx, e.1, e.2) := by
      unfold resolveIdx
      rw [hn, he]
    exact ⟨hr, by rw [← hr]; exact List.mem_map_of_mem _ hidx⟩
  · intro hn ht
    have hr : resolveIdx hcp thomas idx
        = (idx, unknownLabel idx, "Unknown".data) := by
      unfold resolveIdx
      rw [hn, ht]
    exact ⟨hr, by rw [← hr]; exact List.mem_map_of_mem _ hidx⟩

/-- Witness for C7: id 4 is in both tables and the first table's entry is
the one used. -/
theorem presence_filter_precedence_witness :
    resolveIdx [(4, "L-H".data, "HCP-MMP1".data)]
        [(4, "L-T".data, "THOMAS".data)] 4
      = (4, "L-H".data, "HCP-MMP1".data) ∧
    ((4 : Int), ("L-H".data : List Char), ("HCP-MMP1".data : List Char))
      ∈ filter_to_present [(4, "L-H".data, "HCP-MMP1".data)]
          [(4, "L-T".data, "THOMAS".data)] [4] :=
  (presence_filter_precedence [(4, "L-H".data, "HCP-MMP1".data)]
      [(4, "L-T".data, "THOMAS".data)] [4] 4 (by decide)).1
    ("L-H".data, "HCP-MMP1".data) (by decide)

/-- C8: loading the tabular lookup raises its schema error exactly when no
id-like or no name-like column is found, and a row whose id cell does not
parse as an integer is skipped without aborting the load. -/
theorem load_thomas_lut_schema :
    (∀ (cols : List (List Char)) (rows : List (List Cell)),
      (findIdCol cols = none ∨ findNameCol cols = none) ↔
        load_thomas_lut cols rows = .error .schemaError) ∧
    (∀ (cols : List (List Char)) (rows : List (List Cell)) (ci cn : Nat)
      (r : List Cell), findIdCol cols = some ci →
      findNameCol cols = some cn → cellToInt (r.getD ci .na) = none →
      load_thomas_lut cols (r :: rows) = load_thomas_lut cols rows) := by
  constructor
  · intro cols rows
    constructor
    · intro h
      unfold load_thomas_lut
      cases hi : findIdCol cols with
      | none =>
        cases hn : findNameCol cols with
        | none => rfl
        | some cn => rfl
      | some ci =>
        cases hn : findNameCol cols with
        | none => rfl
        | some cn =>
          exfalso
          rcases h with h | h
          · rw [hi] at h; cases h
          · rw [hn] at h; cases h
    · intro h
      cases hi : findIdCol cols with
      | none => exact Or.inl rfl
      | some ci =>
        cases hn : findNameCol cols with
        | none => exact Or.inr rfl
        | some cn =>
          exfalso
          unfold load_thomas_lut at h
          rw [hi, hn] at h
          exact thomasRowsProc_no_schema rows ci cn (findHemiCol cols) [] h
  · intro cols rows ci cn r hci hcn hint
    unfold load_thomas_lut
    rw [hci, hcn]
    exact thomasRowsProc_skip ci cn (findHemiCol cols) r rows [] hint

/-- Witness for C8: a table missing the name column fails with the schema
error; a bad id row is skipped. -/
theorem load_thomas_lut_schema_witness :
    load_thomas_lut ["id".data] [] = .error .schemaError ∧
    load_thomas_lut ["id".data, "name".data]
        [[Cell.strVal "x".data, Cell.strVal "A".data]]
      = load_thomas_lut ["id".data, "name".data] [] :=
  ⟨(load_thomas_lut_schema.1 ["id".data] []).mp (Or.inr (by decide)),
   load_thomas_lut_schema.2 ["id".data, "name".data] [] 0 1
     [Cell.strVal "x".data, Cell.strVal "A".data] (by decide) (by decide)
     (by decide)⟩

/-- C4 (amended): with keep_hcp_ids enabled, every output voxel inside a
secondary's footprint carries the id that secondary's remap dictionary
assigns to its native value there, which lies in (offset, offset + count];
provided the offset is at least every native value of that secondary, the
output id equals no native value. With keep_hcp_ids disabled (the default)
no remapping occurs. -/
theorem stitch_remap_footprint (data left right : List Int) (p : String)
    (lo ro : Int) (hlo : 0 ≤ lo) (hro : 0 ≤ ro)
    (h1 : data.length = left.length) (h2 : data.length = right.length)
    (i : Nat) (hi : i < data.length) :
    (0 < vox right i →
      ∃ j : Nat,
        j < (np_unique (right.filter (fun x => decide (0 < x)))).length ∧
        vox (stitch_thomas_into_aparc data left right p true lo ro).out i
          = ro + (j : Int) + 1 ∧
        lookupD
          (stitch_thomas_into_aparc data left right p true lo ro).right_map
          (vox right i) = some (ro + (j : Int) + 1) ∧
        ((∀ v ∈ right, v ≤ ro) → ∀ v ∈ right,
          vox (stitch_thomas_into_aparc data left right p true lo ro).out i
            ≠ v)) ∧
    (vox right i ≤ 0 → 0 < vox left i →
      ∃ j : Nat,
        j < (np_unique (left.filter (fun x => decide (0 < x)))).length ∧
        vox (stitch_thomas_into_aparc data left right p true lo ro).out i
          = lo + (j : Int) + 1 ∧
        lookupD
          (stitch_thomas_into_aparc data left right p true lo ro).left_map
          (vox left i) = some (lo + (j : Int) + 1) ∧
        ((∀ v ∈ left, v ≤ lo) → ∀ v ∈ left,
          vox (stitch_thomas_into_aparc data left right p true lo ro).out i
            ≠ v)) := by
  constructor
  · intro hr
    have hiR : i < right.length := by omega
    obtain ⟨j, hj, hlook, hval⟩ := processSide_remap_val right ro i hiR hr
    have hRpos : 0 < vox (processSide true right ro).2 i := by
      rw [hval]; omega
    refine ⟨j, hj, ?_, hlook, ?_⟩
    · rw [vox_stitch data left right p true lo ro h1 h2 i hi,
        if_pos hRpos, hval]
    · intro hble v hv
      rw [vox_stitch data left right p true lo ro h1 h2 i hi,
        if_pos hRpos, hval]
      have hvb := hble v hv
      omega
  · intro hrnp hl
    have hiR : i < right.length := by omega
    have hiL : i < left.length := by omega
    have hRnp := processSide_nonpos right ro i hiR hrnp
    obtain ⟨j, hj, hlook, hval⟩ := processSide_remap_val left lo i hiL hl
    have hLpos : 0 < vox (processSide true left lo).2 i := by
      rw [hval]; omega
    refine ⟨j, hj, ?_, hlook, ?_⟩
    · rw [vox_stitch data left right p true lo ro h1 h2 i hi,
        if_neg (by omega), if_pos hLpos, hval]
    · intro hble v hv
      rw [vox_stitch data left right p true lo ro h1 h2 i hi,
        if_neg (by omega), if_pos hLpos, hval]
      have hvb := hble v hv
      omega

/-- Witness for the amended C4 at a concrete stitch: the right-footprint
voxel carries the remapped id 9001 and no native right value. -/
theorem stitch_remap_footprint_witness :
    ∃ j : Nat,
      j < (np_unique (([4] : List Int).filter
        (fun x => decide (0 < x)))).length ∧
      vox (stitch_thomas_into_aparc [7] [0] [4] "m" true 8000 9000).out 0
        = 9000 + (j : Int) + 1 ∧
      lookupD (stitch_thomas_into_aparc [7] [0] [4] "m" true
        8000 9000).right_map (vox [4] 0) = some (9000 + (j : Int) + 1) ∧
      ((∀ v ∈ ([4] : List Int), v ≤ 9000) → ∀ v ∈ ([4] : List Int),
        vox (stitch_thomas_into_aparc [7] [0] [4] "m" true 8000 9000).out 0
          ≠ v) :=
  (stitch_remap_footprint [7] [0] [4] "m" 8000 9000 (by decide) (by decide)
    rfl rfl 0 (by decide)).1 (by decide)

/-- Counterexample for C4 as stated: with keep_hcp_ids left at its default
false, no remapping happens; the output voxel inside the left footprint
carries the secondary's native value 3, the remap dictionaries are empty,
and 3 is not in the offset range above 8000. -/
theorem stitch_no_remap_default_cex :
    (stitch_thomas_into_aparc [5] [3] [0] "m" false 8000 9000).out = [3] ∧
    (stitch_thomas_into_aparc [5] [3] [0] "m" false 8000 9000).left_map
      = [] ∧
    (3 : Int) ∈ ([3] : List Int) ∧ ¬ (8000 < (3 : Int)) := by decide

/-- C6 (amended): the label table built from primary entries plus the
secondary remap dictionaries has pairwise distinct ids, provided the primary
entries themselves have pairwise distinct ids, both offsets exceed every
primary id, and the two offset ranges do not overlap. -/
theorem label_table_ids_nodup (prows : List Row) (lvals rvals : List Int)
    (lnames rnames : List (Int × List Char)) (lo ro M : Int)
    (hpd : (prows.map Row.id).Nodup)
    (hpb : ∀ r ∈ prows, r.id ≤ M)
    (hlo : M < lo) (hro : M < ro)
    (hdisj : lo + ((np_unique lvals).length : Int) ≤ ro ∨
             ro + ((np_unique rvals).length : Int) ≤ lo) :
    ((prows ++ make_thomas_rows_from_maps (build_remap lvals lo)
        (build_remap rvals ro) lnames rnames).map Row.id).Nodup := by
  rw [List.map_append]
  have hmeml : ∀ a, a ∈ (sortPairs (build_remap lvals lo)).map
      (fun q => q.2) →
      lo + 1 ≤ a ∧ a ≤ lo + ((np_unique lvals).length : Int) := by
    intro a ha
    rw [List.Perm.mem_iff ((sortPairs_perm _).map _)] at ha
    obtain ⟨q, hq, rfl⟩ := List.mem_map.mp ha
    exact remapAux_snd_bounds (np_unique lvals) lo q hq
  have hmemr : ∀ a, a ∈ (sortPairs (build_remap rvals ro)).map
      (fun q => q.2) →
      ro + 1 ≤ a ∧ a ≤ ro + ((np_unique rvals).length : Int) := by
    intro a ha
    rw [List.Perm.mem_iff ((sortPairs_perm _).map _)] at ha
    obtain ⟨q, hq, rfl⟩ := List.mem_map.mp ha
    exact remapAux_snd_bounds (np_unique rvals) ro q hq
  have hnl : ((sortPairs (build_remap lvals lo)).map
      (fun q => q.2)).Nodup := by
    have hperm := (sortPairs_perm (build_remap lvals lo)).map
      (fun q : Int × Int => q.2)
    exact hperm.nodup_iff.mpr (remapAux_snd_nodup (np_unique lvals) lo)
  have hnr : ((sortPairs (build_remap rvals ro)).map
      (fun q => q.2)).Nodup := by
    have hperm := (sortPairs_perm (build_remap rvals ro)).map
      (fun q : Int × Int => q.2)
    exact hperm.nodup_iff.mpr (remapAux_snd_nodup (np_unique rvals) ro)
  apply List.Nodup.append hpd ?_ ?_
  · rw [thomas_rows_ids]
    apply List.Nodup.append hnl hnr
    intro a hal har
    have hb1 := hmeml a hal
    have hb2 := hmemr a har
    omega
  · rw [thomas_rows_ids]
    intro a hap hat
    obtain ⟨r, hr, rfl⟩ := List.mem_map.mp hap
    have hrb := hpb r hr
    rcases List.mem_append.mp hat with h | h
    · have hb := hmeml _ h; omega
    · have hb := hmemr _ h; omega

/-- Witness for the amended C6: one primary row with id 5 plus remapped left
and right entries at offsets 8000 and 9000 give a duplicate-free id set. -/
theorem label_table_ids_nodup_witness :
    ((([⟨5, "A".data, "L".data, "HCP-MMP1".data⟩] : List Row)
      ++ make_thomas_rows_from_maps (build_remap [3] 8000)
          (build_remap [2] 9000) [] []).map Row.id).Nodup :=
  label_table_ids_nodup [⟨5, "A".data, "L".data, "HCP-MMP1".data⟩] [3] [2]
    [] [] 8000 9000 5 (by decide) (by decide) (by decide) (by decide)
    (by decide)

/-- Counterexample for C6 as stated: the left and right annotation files of
one subject share a color table, so the builder emits the same id once per
hemisphere; the table then repeats id 5 although the offsets 8000 and 9000
exceed every primary id and their ranges do not overlap. -/
theorem label_table_dup_id_cex :
    (make_hcp_rows_from_annots [0] (some [[0, 0, 0, 0, 5]]) ["A".data]
        [0] (some [[0, 0, 0, 0, 5]]) ["A".data]).toOption
      = some [⟨5, "A".data, "L".data, "HCP-MMP1".data⟩,
              ⟨5, "A".data, "R".data, "HCP-MMP1".data⟩] ∧
    ¬ ((([⟨5, "A".data, "L".data, "HCP-MMP1".data⟩,
          ⟨5, "A".data, "R".data, "HCP-MMP1".data⟩] : List Row)
        ++ make_thomas_rows_from_maps (build_remap [3] 8000)
            (build_remap [2] 9000) [] []).map Row.id).Nodup ∧
    (5 : Int) < 8000 ∧ (5 : Int) < 9000 ∧
    8000 + ((np_unique [3]).length : Int) ≤ 9000 := by decide

